import Mathlib

/-!
Verification of the constance admin module (src/constance/admin.py): a live
configuration editor that renders a dynamically generated form from a config
schema, guards edits with an MD5 version fingerprint, and persists accepted
changes to a pluggable backend store.

The embedding below follows the Python source closely: the config schema is an
ordered association list (Python dict preserves insertion order), Python values
are modelled by the inductive `Value`, the hashlib MD5 digest is implemented
over byte lists with Nat arithmetic mod 2^32, and fallible constructors return
`Except`.
-/

set_option maxRecDepth 4000

namespace Constance

/-! ### Bytes and UTF-8 encoding (django.utils.encoding.smart_bytes) -/

/-- UTF-8 encoding of a single character, as a list of byte values. -/
def utf8Char (c : Char) : List Nat :=
  let n := c.toNat
  if n < 128 then [n]
  else if n < 2048 then [192 + n / 64, 128 + n % 64]
  else if n < 65536 then [224 + n / 4096, 128 + (n / 64) % 64, 128 + n % 64]
  else [240 + n / 262144, 128 + (n / 4096) % 64, 128 + (n / 64) % 64, 128 + n % 64]

/-- UTF-8 encoding of a string as a list of byte values. -/
def utf8Bytes (s : String) : List Nat :=
  s.data.foldl (fun acc c => acc ++ utf8Char c) []

/-! ### MD5 (hashlib.md5), over byte lists, words as Nat mod 2^32 -/

/-- Truncate to a 32-bit word. -/
def w32 (n : Nat) : Nat := n % 4294967296

/-- Left-rotation of a 32-bit word by s bits. -/
def rotl32 (x s : Nat) : Nat := w32 ((x <<< s) ||| (x >>> (32 - s)))

/-- Bitwise complement of a 32-bit word. -/
def wnot (x : Nat) : Nat := 4294967295 ^^^ x

/-- The 64 MD5 sine-derived round constants. -/
def md5K : List Nat :=
  [0xd76aa478, 0xe8c7b756, 0x242070db, 0xc1bdceee,
   0xf57c0faf, 0x4787c62a, 0xa8304613, 0xfd469501,
   0x698098d8, 0x8b44f7af, 0xffff5bb1, 0x895cd7be,
   0x6b901122, 0xfd987193, 0xa679438e, 0x49b40821,
   0xf61e2562, 0xc040b340, 0x265e5a51, 0xe9b6c7aa,
   0xd62f105d, 0x02441453, 0xd8a1e681, 0xe7d3fbc8,
   0x21e1cde6, 0xc33707d6, 0xf4d50d87, 0x455a14ed,
   0xa9e3e905, 0xfcefa3f8, 0x676f02d9, 0x8d2a4c8a,
   0xfffa3942, 0x8771f681, 0x6d9d6122, 0xfde5380c,
   0xa4beea44, 0x4bdecfa9, 0xf6bb4b60, 0xbebfbc70,
   0x289b7ec6, 0xeaa127fa, 0xd4ef3085, 0x04881d05,
   0xd9d4d039, 0xe6db99e5, 0x1fa27cf8, 0xc4ac5665,
   0xf4292244, 0x432aff97, 0xab9423a7, 0xfc93a039,
   0x655b59c3, 0x8f0ccc92, 0xffeff47d, 0x85845dd1,
   0x6fa87e4f, 0xfe2ce6e0, 0xa3014314, 0x4e0811a1,
   0xf7537e82, 0xbd3af235, 0x2ad7d2bb, 0xeb86d391]

/-- The 64 per-round left-rotation amounts. -/
def md5S : List Nat :=
  [7, 12, 17, 22, 7, 12, 17, 22, 7, 12, 17, 22, 7, 12, 17, 22,
   5, 9, 14, 20, 5, 9, 14, 20, 5, 9, 14, 20, 5, 9, 14, 20,
   4, 11, 16, 23, 4, 11, 16, 23, 4, 11, 16, 23, 4, 11, 16, 23,
   6, 10, 15, 21, 6, 10, 15, 21, 6, 10, 15, 21, 6, 10, 15, 21]

/-- The MD5 nonlinear function for round index i (0..63). -/
def md5F (i b c d : Nat) : Nat :=
  if i < 16 then (b &&& c) ||| (wnot b &&& d)
  else if i < 32 then (d &&& b) ||| (wnot d &&& c)
  else if i < 48 then b ^^^ c ^^^ d
  else c ^^^ (b ||| wnot d)

/-- The message-word index consumed at round index i. -/
def md5G (i : Nat) : Nat :=
  if i < 16 then i
  else if i < 32 then (5 * i + 1) % 16
  else if i < 48 then (3 * i + 5) % 16
  else (7 * i) % 16

/-- One 64-round MD5 compression of a 16-word block, then the feed-forward add. -/
def md5Chunk (words : List Nat) (st : Nat × Nat × Nat × Nat) : Nat × Nat × Nat × Nat :=
  let r := (List.range 64).foldl
    (fun (t : Nat × Nat × Nat × Nat) i =>
      let a := t.1
      let b := t.2.1
      let c := t.2.2.1
      let d := t.2.2.2
      let f := w32 (md5F i b c d + a + md5K.getD i 0 + words.getD (md5G i) 0)
      (d, w32 (b + rotl32 f (md5S.getD i 0)), b, c))
    st
  (w32 (st.1 + r.1), w32 (st.2.1 + r.2.1), w32 (st.2.2.1 + r.2.2.1),
   w32 (st.2.2.2 + r.2.2.2))

/-- Split a byte list into little-endian 32-bit words, 4 bytes per word. -/
def bytesToWords : List Nat → List Nat
  | b0 :: b1 :: b2 :: b3 :: rest =>
      (b0 + 256 * b1 + 65536 * b2 + 16777216 * b3) :: bytesToWords rest
  | _ => []

/-- MD5 padding: append 0x80, zeros to 56 mod 64, then the 64-bit little-endian bit length. -/
def md5Pad (msg : List Nat) : List Nat :=
  let len := msg.length
  let zeros := (120 - (len + 1) % 64) % 64
  let bitlen := (len * 8) % 18446744073709551616
  msg ++ [128] ++ List.replicate zeros 0 ++
    (List.range 8).map (fun i => (bitlen >>> (8 * i)) % 256)

/-- Split a word list into blocks of 16 words (the padded message always
divides evenly; a ragged tail would be dropped). -/
def wordsToBlocks : List Nat → List (List Nat)
  | w0 :: w1 :: w2 :: w3 :: w4 :: w5 :: w6 :: w7 ::
    w8 :: w9 :: w10 :: w11 :: w12 :: w13 :: w14 :: w15 :: rest =>
      [w0, w1, w2, w3, w4, w5, w6, w7, w8, w9, w10, w11, w12, w13, w14, w15] ::
        wordsToBlocks rest
  | _ => []

/-- The four MD5 state words after hashing a byte list, starting from the standard IV. -/
def md5State (msg : List Nat) : Nat × Nat × Nat × Nat :=
  (wordsToBlocks (bytesToWords (md5Pad msg))).foldl (fun st block => md5Chunk block st)
    (0x67452301, 0xefcdab89, 0x98badcfe, 0x10325476)

/-- Lowercase hex character for a value below 16. -/
def hexChar (n : Nat) : Char :=
  if n < 10 then Char.ofNat (48 + n) else Char.ofNat (87 + n)

/-- Two lowercase hex characters for one byte. -/
def hexByte (n : Nat) : List Char := [hexChar (n / 16), hexChar (n % 16)]

/-- A 32-bit word rendered as 8 hex characters, least-significant byte first. -/
def hexWordLE (w : Nat) : List Char :=
  hexByte (w % 256) ++ hexByte ((w >>> 8) % 256) ++ hexByte ((w >>> 16) % 256) ++
    hexByte ((w >>> 24) % 256)

/-- The hexdigest of MD5 over a byte list (hashlib md5 hexdigest). -/
def md5Hex (msg : List Nat) : String :=
  let st := md5State msg
  String.mk (hexWordLE st.1 ++ hexWordLE st.2.1 ++ hexWordLE st.2.2.1 ++
    hexWordLE st.2.2.2)

/-- Decidable equality for Except results, so concrete runs of fallible
constructors can be checked by evaluation. -/
instance instDecEqExcept {ε α : Type} [DecidableEq ε] [DecidableEq α] :
    DecidableEq (Except ε α) := fun x y =>
  match x, y with
  | .ok a, .ok b =>
      if h : a = b then .isTrue (h ▸ rfl)
      else .isFalse (fun hc => h (Except.ok.inj hc))
  | .error a, .error b =>
      if h : a = b then .isTrue (h ▸ rfl)
      else .isFalse (fun hc => h (Except.error.inj hc))
  | .ok _, .error _ => .isFalse (fun hc => Except.noConfusion hc)
  | .error _, .ok _ => .isFalse (fun hc => Except.noConfusion hc)

/-! ### Python values and the config schema -/

/-- Python runtime values as they occur in config defaults and the backend
store. `vnone` is Python None. Dates, times, decimals and floats do not appear
in the claims and are omitted. -/
inductive Value where
  | vnone
  | vstr (s : String)
  | vint (n : Int)
  | vbool (b : Bool)
  deriving DecidableEq

/-- Semantic config value types, mirroring the Python type objects used as
keys of FIELDS; `custom` stands for any class outside the fixed table. -/
inductive ConfigType where
  | cbool
  | cint
  | cdecimal
  | cstr
  | cdatetime
  | cdate
  | ctime
  | cfloat
  | custom (clsname : String)
  deriving DecidableEq

/-- Python type(v) for the modelled values. type(None) is NoneType, which is
not a key of FIELDS. -/
def typeOf : Value → ConfigType
  | .vnone => .custom ("NoneType")
  | .vstr _ => .cstr
  | .vint _ => .cint
  | .vbool _ => .cbool

/-- Python str(v) for the modelled values. -/
def pyStr : Value → String
  | .vnone => "None"
  | .vstr s => s
  | .vint n => toString n
  | .vbool b => if b then "True" else "False"

/-- django.utils.encoding.smart_bytes: the UTF-8 bytes of str(v). -/
def smart_bytes (v : Value) : List Nat := utf8Bytes (pyStr v)

/-- One entry of the config schema: the options tuple is (default, help_text)
or (default, help_text, config_type), mirroring len(options) being 2 or 3. -/
inductive SettingOptions where
  | two (dflt : Value) (help : String)
  | three (dflt : Value) (help : String) (ty : ConfigType)
  deriving DecidableEq

/-- The default value, options[0]. -/
def SettingOptions.dflt : SettingOptions → Value
  | .two d _ => d
  | .three d _ _ => d

/-- The help text, options[1]. -/
def SettingOptions.help : SettingOptions → String
  | .two _ h => h
  | .three _ h _ => h

/-- The resolved config type of a setting: options[2] when the tuple has
length 3, else type(default). -/
def resolvedType : SettingOptions → ConfigType
  | .two d _ => typeOf d
  | .three _ _ t => t

/-- settings.CONFIG: an ordered mapping from setting name to options tuple
(Python dicts preserve insertion order and have unique keys). -/
abbrev Schema := List (String × SettingOptions)

/-- Association-list lookup, the first (hence, with unique keys, only) match;
models Python dict indexing and .get. -/
def lookupA {α : Type} : List (String × α) → String → Option α
  | [], _ => none
  | p :: rest, k => if p.1 = k then some p.2 else lookupA rest k

/-- Python dict assignment d[k] = v: overwrite in place when the key exists,
append otherwise. -/
def assign {α : Type} (l : List (String × α)) (k : String) (v : α) :
    List (String × α) :=
  if l.any (fun p => p.1 = k) then
    l.map (fun p => if p.1 = k then (k, v) else p)
  else l ++ [(k, v)]

/-! ### The type registry FIELDS -/

/-- Django form field classes appearing in the FIELDS table. -/
inductive FieldClass where
  | BooleanField
  | IntegerField
  | DecimalField
  | CharField
  | DateTimeField
  | DateField
  | TimeField
  | FloatField
  deriving DecidableEq

/-- Widgets appearing in the FIELDS table options. `plain` is the field
classes own default widget. -/
inductive Widget where
  | plain
  | numeric
  | textarea3
  | adminSplitDateTime
  | adminDate
  | adminTime
  | hiddenInput
  deriving DecidableEq

/-- A (field class, keyword options) pair: one value of the FIELDS table.
`required` is true unless the kwargs pass required=False. -/
structure FieldSpec where
  klass : FieldClass
  widget : Widget
  required : Bool
  deriving DecidableEq

/-- INTEGER_LIKE = (IntegerField, widget NUMERIC_WIDGET). -/
def INTEGER_LIKE : FieldSpec := ⟨.IntegerField, .numeric, true⟩

/-- STRING_LIKE = (CharField, 3-row Textarea, required False). -/
def STRING_LIKE : FieldSpec := ⟨.CharField, .textarea3, false⟩

/-- The fixed FIELDS table mapping config types to field specs. Extensions
from settings.ADDITIONAL_FIELDS are external configuration (empty by default)
and are not modelled; custom classes are therefore unregistered. -/
def FIELDS : ConfigType → Option FieldSpec
  | .cbool => some ⟨.BooleanField, .plain, false⟩
  | .cint => some INTEGER_LIKE
  | .cdecimal => some ⟨.DecimalField, .numeric, true⟩
  | .cstr => some STRING_LIKE
  | .cdatetime => some ⟨.DateTimeField, .adminSplitDateTime, true⟩
  | .cdate => some ⟨.DateField, .adminDate, true⟩
  | .ctime => some ⟨.TimeField, .adminTime, true⟩
  | .cfloat => some ⟨.FloatField, .numeric, true⟩
  | .custom _ => none

/-- An instantiated form field: field_class(label=name, **kwargs); the
declared hidden version field has no label argument. -/
structure FormField where
  spec : FieldSpec
  label : Option String
  deriving DecidableEq

/-- The declared class attribute: version = forms.CharField(widget=HiddenInput). -/
def versionField : FormField := ⟨⟨.CharField, .hiddenInput, true⟩, none⟩

/-- The field stored for a setting whose resolved type is registered: the
FIELDS entry instantiated with label=name (the getD default is junk, reached
only when FIELDS has no entry and init raises instead). -/
def settingField (p : String × SettingOptions) : FormField :=
  ⟨(FIELDS (resolvedType p.2)).getD STRING_LIKE, some p.1⟩

/-- The error raised for an unregistered config type; it names the offending
type and setting, as the ImproperlyConfigured message does. -/
structure ConfigError where
  config_type : ConfigType
  name : String
  deriving DecidableEq

/-! ### ConstanceForm -/

/-- The body of the loop in ConstanceForm.init over settings.CONFIG.items():
resolve the config type, raise ImproperlyConfigured when it is not a FIELDS
key, otherwise assign the instantiated field under the setting name and feed
smart_bytes(initial.get(name, the empty string)) to the version hash. -/
def initLoop (initial : List (String × Value)) :
    Schema → List (String × FormField) → List Nat →
    Except ConfigError (List (String × FormField) × List Nat)
  | [], fs, bs => .ok (fs, bs)
  | (name, opts) :: rest, fs, bs =>
      match FIELDS (resolvedType opts) with
      | none => .error ⟨resolvedType opts, name⟩
      | some spec =>
          initLoop initial rest (assign fs name ⟨spec, some name⟩)
            (bs ++ smart_bytes ((lookupA initial name).getD (.vstr "")))

/-- A constructed ConstanceForm: its field dict (the declared version field
first, then one assignment per setting) and initial.version, which init
overwrites with the accumulated hexdigest. -/
structure ConstanceForm where
  fields : List (String × FormField)
  version : String
  deriving DecidableEq

/-- ConstanceForm.init on a schema and an initial value mapping; raises
ImproperlyConfigured (as an Except error) for an unregistered type. -/
def ConstanceForm.init (schema : Schema) (initial : List (String × Value)) :
    Except ConfigError ConstanceForm :=
  match initLoop initial schema [(("version" : String), versionField)] [] with
  | .error e => .error e
  | .ok (fs, bs) => .ok ⟨fs, md5Hex bs⟩

/-- The bytes fed to the version hash, stated the way the spec reads: for
each setting in schema iteration order, the string-encoded current initial
value, a setting absent from the mapping contributing the empty string. -/
def hashBytes : Schema → List (String × Value) → List Nat
  | [], _ => []
  | p :: rest, initial =>
      smart_bytes ((lookupA initial p.1).getD (.vstr "")) ++ hashBytes rest initial

/-- The version fingerprint a form built from this schema and initial mapping
carries: the MD5 hexdigest of hashBytes. -/
def versionHash (schema : Schema) (initial : List (String × Value)) : String :=
  md5Hex (hashBytes schema initial)

/-- Validation errors raised by the form. -/
inductive ValidationError where
  | concurrentModification
  deriving DecidableEq

/-- ConstanceForm.clean_version: raise the concurrent-modification validation
error when the submitted value differs from initial.version (the digest
computed at construction time), else return the value. -/
def ConstanceForm.clean_version (form : ConstanceForm) (value : String) :
    Except ValidationError String :=
  if value ≠ form.version then .error .concurrentModification else .ok value

/-- Modelled from the spec: setattr(config, name, value) goes through the
config proxy (a class outside src) to the Backend Store contract
set(name, value). -/
def backendSet (backend : List (String × Value)) (n : String) (v : Value) :
    List (String × Value) :=
  assign backend n v

/-- ConstanceForm.save: for every name in settings.CONFIG, one
setattr(config, name, cleaned_data[name]). Returns the resulting backend
contents and the log of writes performed, in order. -/
def ConstanceForm.save (schema : Schema) (cleaned : String → Value)
    (backend : List (String × Value)) :
    List (String × Value) × List (String × Value) :=
  schema.foldl
    (fun st p => (backendSet st.1 p.1 (cleaned p.1), st.2 ++ [(p.1, cleaned p.1)]))
    (backend, [])

/-! ### ConstanceAdmin -/

/-- The requesting user, with the two authorization facts the view consults:
request.user.is_superuser and the host framework default change permission
(the super() result). -/
structure User where
  is_superuser : Bool
  has_default_change_perm : Bool
  deriving DecidableEq

/-- ConstanceAdmin.has_change_permission: superuser flag when
settings.SUPERUSER_ONLY, else the framework default. -/
def has_change_permission (superuser_only : Bool) (u : User) : Bool :=
  if superuser_only then u.is_superuser else u.has_default_change_perm

/-- ConstanceAdmin.has_add_permission: False for every input. -/
def has_add_permission (u : User) : Bool := false

/-- ConstanceAdmin.has_delete_permission: False for every input. -/
def has_delete_permission (u : User) : Bool := false

/-- Backend mget: the name-to-value pairs for the requested keys that are
present in the store, per the Backend Store contract. -/
def mget (backend : List (String × Value)) (keys : List String) :
    List (String × Value) :=
  keys.filterMap (fun k => (lookupA backend k).map (fun v => (k, v)))

/-- Python dict(base, **upd): base updated key by key with upd. -/
def dictUpdate {α : Type} (base upd : List (String × α)) : List (String × α) :=
  upd.foldl (fun acc p => assign acc p.1 p.2) base

/-- The initial mapping of changelist_view: the defaults
(name, options[0]) updated with the backend values from one bulk mget over
all schema keys. -/
def buildInitial (schema : Schema) (backend : List (String × Value)) :
    List (String × Value) :=
  dictUpdate (schema.map (fun p => (p.1, p.2.dflt)))
    (mget backend (schema.map (fun p => p.1)))

/-- Modelled from the spec: getattr(config, name) reads the Backend Store
(get(name) returning the value or absent), absent meaning use the default
(the config proxy class is outside src). -/
def config_getattr (schema : Schema) (backend : List (String × Value))
    (name : String) : Value :=
  match lookupA backend name with
  | some v => v
  | none => ((lookupA schema name).map (fun o => o.dflt)).getD .vnone

/-- One display row of the change list context. form_field (the bound field
form[name]) and the localize() formatting of default and value are
presentation-layer and omitted; default and value are kept raw, as the
comparison computing modified is. -/
structure DisplayRow where
  name : String
  dflt : Value
  help_text : String
  value : Value
  modified : Bool
  deriving DecidableEq

/-- The row built for one setting: value is initial.get(name) unless that is
None, in which case getattr(config, name); modified compares value with the
default. -/
def rowOf (schema : Schema) (initial backend : List (String × Value))
    (p : String × SettingOptions) : DisplayRow :=
  let v0 := (lookupA initial p.1).getD Value.vnone
  let value := if v0 = Value.vnone then config_getattr schema backend p.1 else v0
  { name := p.1, dflt := p.2.dflt, help_text := p.2.help, value := value,
    modified := decide (value ≠ p.2.dflt) }

/-- Insertion into a name-sorted row list. -/
def insertRow (r : DisplayRow) : List DisplayRow → List DisplayRow
  | [] => [r]
  | x :: xs => if r.name ≤ x.name then r :: x :: xs else x :: insertRow r xs

/-- context.config.sort(key=itemgetter(name)): sort the rows by name. -/
def sortRows (rows : List DisplayRow) : List DisplayRow :=
  rows.foldr insertRow []

/-- The outcome of changelist_view. -/
inductive ViewResult where
  | permissionDenied
  | configError (e : ConfigError)
  | page (rows : List DisplayRow) (form : ConstanceForm)
  deriving DecidableEq

/-- ConstanceAdmin.changelist_view on a GET request: PermissionDenied before
anything else when has_change_permission fails, then the initial mapping,
then the form (whose construction can raise ImproperlyConfigured), then the
name-sorted display rows. The POST branch (form bound to submitted data,
save and redirect when valid) is covered by ConstanceForm.clean_version and
ConstanceForm.save above. -/
def changelist_view (superuser_only : Bool) (u : User) (schema : Schema)
    (backend : List (String × Value)) : ViewResult :=
  if has_change_permission superuser_only u then
    match ConstanceForm.init schema (buildInitial schema backend) with
    | .error e => .configError e
    | .ok form =>
        .page (sortRows (schema.map
          (rowOf schema (buildInitial schema backend) backend))) form
  else .permissionDenied

/-- Embeds module import time of src/constance/admin.py: importing the module
builds the FIELDS table (plus external ADDITIONAL_FIELDS) and registers the
admin class, but inspects no setting of settings.CONFIG, so no
ImproperlyConfigured about a config value type can be raised then; the check
lives in ConstanceForm.init. -/
def module_import_check (schema : Schema) : Except ConfigError Unit :=
  .ok ()

/-! ### Concrete instances for witnesses and counterexamples -/

/-- The form a successful init yields (junk when init raises). -/
def exForm (s : Schema) (i : List (String × Value)) : ConstanceForm :=
  (ConstanceForm.init s i).toOption.getD ⟨[], ""⟩

/-- A schema of two string settings A and B. -/
def schemaAB : Schema :=
  [(("A" : String), .two (.vstr "") ("")), (("B" : String), .two (.vstr "") (""))]

/-- The same two settings in the other iteration order. -/
def schemaBA : Schema :=
  [(("B" : String), .two (.vstr "") ("")), (("A" : String), .two (.vstr "") (""))]

/-- Backend values A = x, B = y. -/
def initXY : List (String × Value) :=
  [(("A" : String), .vstr ("x")), (("B" : String), .vstr ("y"))]

/-- Adjacent strings split one way: A = ab, B = c. -/
def mSplit1 : List (String × Value) :=
  [(("A" : String), .vstr ("ab")), (("B" : String), .vstr ("c"))]

/-- The same characters split at the other boundary: A = a, B = bc. -/
def mSplit2 : List (String × Value) :=
  [(("A" : String), .vstr ("a")), (("B" : String), .vstr ("bc"))]

/-- A one-setting schema with string default x. -/
def schemaA1 : Schema := [(("A" : String), .two (.vstr ("x")) (""))]

/-- A backend storing A = y. -/
def backendY : List (String × Value) := [(("A" : String), .vstr ("y"))]

/-- A one-setting schema with string default v. -/
def schemaAv : Schema := [(("A" : String), .two (.vstr ("v")) (""))]

/-- A backend storing A = v (equal to the default and to the submission). -/
def backendV : List (String × Value) := [(("A" : String), .vstr ("v"))]

/-- A schema whose only setting FOO has an explicit custom (unregistered)
type. -/
def schemaBad : Schema :=
  [(("FOO" : String), .three (.vstr ("x")) ("") (.custom ("Widget")))]

/-- A two-setting schema: A an int by inferred type, B a string by explicit
length-3 options tuple. -/
def schemaW2 : Schema :=
  [(("A" : String), .two (.vint 1) ("")),
   (("B" : String), .three (.vstr ("x")) ("") .cstr)]

/-- The display row the view renders for schemaA1 over backendY. -/
def rowA : DisplayRow :=
  ⟨("A"), .vstr ("x"), (""), .vstr ("y"), true⟩

/-- A superuser. -/
def uSuper : User := ⟨true, true⟩

/-- A non-superuser who does hold the framework default change permission. -/
def uPlain : User := ⟨false, true⟩

end Constance

namespace Constance

/-! ### Association-list lemmas -/

theorem lookupA_append_some {α : Type} {l1 : List (String × α)} {n : String}
    {v : α} (l2 : List (String × α)) (h : lookupA l1 n = some v) :
    lookupA (l1 ++ l2) n = some v := by
  induction l1 with
  | nil => simp [lookupA] at h
  | cons p rest ih =>
    simp only [lookupA, List.cons_append] at h ⊢
    by_cases hp : p.1 = n
    · simpa [hp] using h
    · simp only [hp, if_false] at h ⊢
      exact ih h

theorem lookupA_append_none {α : Type} {l1 : List (String × α)} {n : String}
    (l2 : List (String × α)) (h : lookupA l1 n = none) :
    lookupA (l1 ++ l2) n = lookupA l2 n := by
  induction l1 with
  | nil => simp [lookupA]
  | cons p rest ih =>
    simp only [lookupA, List.cons_append] at h ⊢
    by_cases hp : p.1 = n
    · simp [hp] at h
    · simp only [hp, if_false] at h ⊢
      exact ih h

theorem lookupA_not_mem {α : Type} {l : List (String × α)} {n : String}
    (h : n ∉ l.map Prod.fst) : lookupA l n = none := by
  induction l with
  | nil => rfl
  | cons p rest ih =>
    simp only [List.map_cons, List.mem_cons] at h
    push_neg at h
    simp only [lookupA]
    rw [if_neg (fun hp => h.1 hp.symm)]
    exact ih h.2

theorem lookupA_of_mem_nodup {α : Type} {l : List (String × α)} {n : String}
    {v : α} (hnd : (l.map Prod.fst).Nodup) (hm : (n, v) ∈ l) :
    lookupA l n = some v := by
  induction l with
  | nil => simp at hm
  | cons p rest ih =>
    simp only [List.map_cons, List.nodup_cons] at hnd
    rcases List.mem_cons.mp hm with h1 | h2
    · simp [lookupA, ← h1]
    · have hne : p.1 ≠ n := by
        intro he
        exact hnd.1 (he ▸ (List.mem_map.mpr ⟨(n, v), h2, rfl⟩))
      simp only [lookupA, if_neg hne]
      exact ih hnd.2 h2

theorem lookupA_mapReplace_ne {α : Type} {k n : String} (hn : n ≠ k)
    (l : List (String × α)) (v : α) :
    lookupA (l.map (fun p => if p.1 = k then (k, v) else p)) n = lookupA l n := by
  induction l with
  | nil => rfl
  | cons p rest ih =>
    by_cases hpk : p.1 = k
    · simp only [List.map_cons, if_pos hpk, lookupA]
      rw [if_neg (Ne.symm hn), if_neg (fun h => hn (h.symm.trans hpk))]
      exact ih
    · simp only [List.map_cons, if_neg hpk, lookupA]
      by_cases hpn : p.1 = n
      · simp [hpn]
      · rw [if_neg hpn, if_neg hpn]
        exact ih

theorem lookupA_mapReplace_eq {α : Type} {k : String} {l : List (String × α)}
    (v : α) (h : l.any (fun p => p.1 = k) = true) :
    lookupA (l.map (fun p => if p.1 = k then (k, v) else p)) k = some v := by
  induction l with
  | nil => simp at h
  | cons p rest ih =>
    by_cases hpk : p.1 = k
    · simp [List.map_cons, if_pos hpk, lookupA]
    · simp only [List.any_cons, Bool.or_eq_true, decide_eq_true_eq] at h
      rcases h with h1 | h2
      · exact absurd h1 hpk
      · simp only [List.map_cons, if_neg hpk, lookupA, if_neg hpk]
        exact ih h2

theorem lookupA_assign {α : Type} (l : List (String × α)) (k n : String)
    (v : α) : lookupA (assign l k v) n = if n = k then some v else lookupA l n := by
  unfold assign
  by_cases hany : l.any (fun p => p.1 = k)
  · rw [if_pos hany]
    by_cases hnk : n = k
    · subst hnk
      rw [if_pos rfl]
      exact lookupA_mapReplace_eq v hany
    · rw [if_neg hnk]
      exact lookupA_mapReplace_ne hnk l v
  · rw [if_neg hany]
    by_cases hnk : n = k
    · subst hnk
      have hnone : lookupA l n = none := by
        apply lookupA_not_mem
        intro hmem
        rcases List.mem_map.mp hmem with ⟨p, hp, hfst⟩
        exact hany (List.any_eq_true.mpr ⟨p, hp, by simp [hfst]⟩)
      rw [lookupA_append_none _ hnone]
      simp [lookupA]
    · rw [if_neg hnk]
      cases hl : lookupA l n with
      | some w => exact lookupA_append_some _ hl
      | none =>
        rw [lookupA_append_none _ hl]
        simp [lookupA, Ne.symm hnk]

theorem mget_cons (backend : List (String × Value)) (k : String)
    (rest : List String) :
    mget backend (k :: rest) =
      match lookupA backend k with
      | some v => (k, v) :: mget backend rest
      | none => mget backend rest := by
  cases hb : lookupA backend k <;> simp [mget, List.filterMap_cons, hb]

theorem lookupA_mget {backend : List (String × Value)} {n : String} :
    ∀ keys : List String,
      lookupA (mget backend keys) n =
        if n ∈ keys then lookupA backend n else none := by
  intro keys
  induction keys with
  | nil => simp [mget, lookupA]
  | cons k rest ih =>
    rw [mget_cons]
    cases hb : lookupA backend k with
    | some v =>
      simp only [lookupA]
      by_cases hnk : k = n
      · subst hnk
        simp [hb, List.mem_cons]
      · rw [if_neg hnk, ih]
        by_cases hr : n ∈ rest
        · rw [if_pos hr, if_pos (List.mem_cons.mpr (Or.inr hr))]
        · rw [if_neg hr,
            if_neg (fun h => (List.mem_cons.mp h).elim (fun he => hnk he.symm) hr)]
    | none =>
      rw [ih]
      by_cases hnk : n = k
      · subst hnk
        by_cases hr : n ∈ rest
        · simp [hr, hb, List.mem_cons]
        · simp [hr, hb, List.mem_cons]
      · by_cases hr : n ∈ rest
        · simp [hr, List.mem_cons, hnk]
        · simp [hr, List.mem_cons, hnk]

theorem mget_keys (backend : List (String × Value)) :
    ∀ keys : List String,
      (mget backend keys).map Prod.fst =
        keys.filter (fun k => (lookupA backend k).isSome) := by
  intro keys
  induction keys with
  | nil => rfl
  | cons k rest ih =>
    rw [mget_cons]
    cases hb : lookupA backend k with
    | some v => simp [List.filter_cons, hb, ih]
    | none => simp [List.filter_cons, hb, ih]

theorem lookupA_dictUpdate {α : Type} {n : String} :
    ∀ (upd base : List (String × α)), (upd.map Prod.fst).Nodup →
      lookupA (dictUpdate base upd) n =
        (lookupA upd n).elim (lookupA base n) some := by
  intro upd
  induction upd with
  | nil => intro base _; simp [dictUpdate, lookupA]
  | cons p rest ih =>
    intro base hnd
    simp only [List.map_cons, List.nodup_cons] at hnd
    have step : dictUpdate base (p :: rest) = dictUpdate (assign base p.1 p.2) rest := rfl
    rw [step, ih _ hnd.2, lookupA_assign]
    simp only [lookupA]
    by_cases hnp : n = p.1
    · have hrest : lookupA rest n = none :=
        lookupA_not_mem (by rw [hnp]; exact hnd.1)
      rw [hrest, if_pos hnp, if_pos hnp.symm]
      simp [Option.elim]
    · rw [if_neg hnp, if_neg (fun h : p.1 = n => hnp h.symm)]

theorem lookupA_buildInitial {schema : Schema} {n : String}
    {opts : SettingOptions} (backend : List (String × Value))
    (hnd : (schema.map Prod.fst).Nodup) (hm : (n, opts) ∈ schema) :
    lookupA (buildInitial schema backend) n =
      some ((lookupA backend n).getD opts.dflt) := by
  have hmgetnd : ((mget backend (schema.map Prod.fst)).map Prod.fst).Nodup := by
    rw [mget_keys]
    exact hnd.filter _
  have hbase : lookupA (schema.map (fun p => (p.1, p.2.dflt))) n =
      some opts.dflt := by
    have hnd2 : ((schema.map (fun p => (p.1, p.2.dflt))).map Prod.fst).Nodup := by
      rw [List.map_map]
      exact hnd
    exact lookupA_of_mem_nodup hnd2 (List.mem_map.mpr ⟨(n, opts), hm, rfl⟩)
  have hmem : n ∈ schema.map Prod.fst := List.mem_map.mpr ⟨(n, opts), hm, rfl⟩
  unfold buildInitial
  rw [lookupA_dictUpdate _ _ hmgetnd, lookupA_mget, if_pos hmem, hbase]
  cases lookupA backend n <;> rfl

/-! ### Save and initLoop lemmas -/

theorem assign_append {α : Type} {l : List (String × α)} {k : String}
    (h : k ∉ l.map Prod.fst) (v : α) : assign l k v = l ++ [(k, v)] := by
  unfold assign
  rw [if_neg]
  intro hany
  rcases List.any_eq_true.mp hany with ⟨p, hp, he⟩
  exact h (List.mem_map.mpr ⟨p, hp, by simpa using he⟩)

theorem save_fold (cleaned : String → Value) :
    ∀ (schema : Schema) (st : List (String × Value) × List (String × Value)),
      schema.foldl
        (fun st p => (backendSet st.1 p.1 (cleaned p.1), st.2 ++ [(p.1, cleaned p.1)])) st =
      (schema.foldl (fun b p => backendSet b p.1 (cleaned p.1)) st.1,
       st.2 ++ schema.map (fun p => (p.1, cleaned p.1))) := by
  intro schema
  induction schema with
  | nil => intro st; simp
  | cons p rest ih =>
    intro st
    simp only [List.foldl_cons, List.map_cons]
    rw [ih]
    simp

theorem save_writes (schema : Schema) (cleaned : String → Value)
    (backend : List (String × Value)) :
    (ConstanceForm.save schema cleaned backend).2 =
      schema.map (fun p => (p.1, cleaned p.1)) := by
  unfold ConstanceForm.save
  rw [save_fold]
  simp

theorem save_backend (schema : Schema) (cleaned : String → Value)
    (backend : List (String × Value)) :
    (ConstanceForm.save schema cleaned backend).1 =
      schema.foldl (fun b p => backendSet b p.1 (cleaned p.1)) backend := by
  unfold ConstanceForm.save
  rw [save_fold]

theorem lookupA_foldl_backendSet_not_mem {cleaned : String → Value} {n : String} :
    ∀ (schema : Schema) (b : List (String × Value)),
      n ∉ schema.map Prod.fst →
      lookupA (schema.foldl (fun b p => backendSet b p.1 (cleaned p.1)) b) n =
        lookupA b n := by
  intro schema
  induction schema with
  | nil => intro b _; rfl
  | cons p rest ih =>
    intro b hn
    simp only [List.map_cons, List.mem_cons] at hn
    push_neg at hn
    simp only [List.foldl_cons]
    rw [ih _ hn.2]
    unfold backendSet
    rw [lookupA_assign, if_neg hn.1]

theorem lookupA_save {cleaned : String → Value} {n : String} :
    ∀ (schema : Schema) (backend : List (String × Value)),
      n ∈ schema.map Prod.fst →
      lookupA ((ConstanceForm.save schema cleaned backend).1) n = some (cleaned n) := by
  intro schema
  induction schema with
  | nil => intro backend h; simp at h
  | cons p rest ih =>
    intro backend hmem
    rw [save_backend]
    simp only [List.foldl_cons]
    by_cases hr : n ∈ rest.map Prod.fst
    · have := ih (backendSet backend p.1 (cleaned p.1)) hr
      rw [save_backend] at this
      exact this
    · have hnp : n = p.1 := by
        simp only [List.map_cons, List.mem_cons] at hmem
        exact hmem.resolve_right hr
      rw [lookupA_foldl_backendSet_not_mem _ _ hr]
      unfold backendSet
      rw [lookupA_assign, if_pos hnp, hnp]

theorem initLoop_bytes (initial : List (String × Value)) :
    ∀ (schema : Schema) (fs : List (String × FormField)) (bs : List Nat)
      (fs2 : List (String × FormField)) (bs2 : List Nat),
      initLoop initial schema fs bs = .ok (fs2, bs2) →
      bs2 = bs ++ hashBytes schema initial := by
  intro schema
  induction schema with
  | nil =>
    intro fs bs fs2 bs2 h
    simp only [initLoop, Except.ok.injEq, Prod.mk.injEq] at h
    simp [hashBytes, ← h.2]
  | cons p rest ih =>
    intro fs bs fs2 bs2 h
    cases hF : FIELDS (resolvedType p.2) with
    | none => simp [initLoop, hF] at h
    | some spec =>
      simp only [initLoop, hF] at h
      rw [ih _ _ _ _ h, hashBytes, List.append_assoc]

theorem init_version {schema : Schema} {initial : List (String × Value)}
    {form : ConstanceForm}
    (h : ConstanceForm.init schema initial = .ok form) :
    form.version = versionHash schema initial := by
  unfold ConstanceForm.init at h
  cases hL : initLoop initial schema [(("version" : String), versionField)] [] with
  | error e => rw [hL] at h; simp at h
  | ok r =>
    rw [hL] at h
    simp only [Except.ok.injEq] at h
    have hb := initLoop_bytes initial schema _ _ r.1 r.2 (by rw [hL])
    rw [← h]
    show md5Hex r.2 = versionHash schema initial
    unfold versionHash
    rw [hb]
    simp

theorem initLoop_fields (initial : List (String × Value)) :
    ∀ (schema : Schema) (fs : List (String × FormField)) (bs : List Nat)
      (fs2 : List (String × FormField)) (bs2 : List Nat),
      initLoop initial schema fs bs = .ok (fs2, bs2) →
      (schema.map Prod.fst).Nodup →
      (∀ m, m ∈ schema.map Prod.fst → m ∉ fs.map Prod.fst) →
      fs2 = fs ++ schema.map (fun p => (p.1, settingField p)) := by
  intro schema
  induction schema with
  | nil =>
    intro fs bs fs2 bs2 h _ _
    simp only [initLoop, Except.ok.injEq, Prod.mk.injEq] at h
    simp [← h.1]
  | cons p rest ih =>
    intro fs bs fs2 bs2 h hnd hfresh
    cases hF : FIELDS (resolvedType p.2) with
    | none => simp [initLoop, hF] at h
    | some spec =>
      simp only [initLoop, hF] at h
      have hp1 : p.1 ∉ fs.map Prod.fst :=
        hfresh p.1 (by simp [List.map_cons, List.mem_cons])
      rw [assign_append hp1] at h
      simp only [List.map_cons, List.nodup_cons] at hnd
      have hfresh2 : ∀ m, m ∈ rest.map Prod.fst →
          m ∉ (fs ++ [(p.1, (⟨spec, some p.1⟩ : FormField))]).map Prod.fst := by
        intro m hm
        simp only [List.map_append, List.mem_append, List.map_cons,
          List.mem_singleton, List.map_nil]
        push_neg
        constructor
        · exact hfresh m (by simp [List.map_cons, List.mem_cons, hm])
        · intro he
          exact hnd.1 (he ▸ hm)
      have := ih _ _ fs2 bs2 h hnd.2 hfresh2
      rw [this, List.append_assoc]
      simp only [List.singleton_append, List.map_cons, List.cons_append,
        List.nil_append]
      have hsf : settingField p = ⟨spec, some p.1⟩ := by
        unfold settingField
        rw [hF]
        rfl
      rw [hsf]

theorem initLoop_error (initial : List (String × Value)) :
    ∀ (schema : Schema) (fs : List (String × FormField)) (bs : List Nat),
      (∃ p, p ∈ schema ∧ FIELDS (resolvedType p.2) = none) →
      ∃ e : ConfigError, initLoop initial schema fs bs = .error e ∧
        (∃ opts, (e.name, opts) ∈ schema ∧ resolvedType opts = e.config_type) ∧
        FIELDS e.config_type = none := by
  intro schema
  induction schema with
  | nil => intro fs bs h; rcases h with ⟨p, hp, _⟩; simp at hp
  | cons q rest ih =>
    intro fs bs hbad
    cases hF : FIELDS (resolvedType q.2) with
    | none =>
      refine ⟨⟨resolvedType q.2, q.1⟩, ?_, ⟨q.2, ?_, rfl⟩, hF⟩
      · simp [initLoop, hF]
      · exact List.mem_cons.mpr (Or.inl rfl)
    | some spec =>
      have hrest : ∃ p, p ∈ rest ∧ FIELDS (resolvedType p.2) = none := by
        rcases hbad with ⟨p, hp, hpn⟩
        rcases List.mem_cons.mp hp with h1 | h2
        · rw [h1] at hpn
          rw [hpn] at hF
          exact absurd hF (by simp)
        · exact ⟨p, h2, hpn⟩
      rcases ih (assign fs q.1 ⟨spec, some q.1⟩)
        (bs ++ smart_bytes ((lookupA initial q.1).getD (.vstr ""))) hrest with
        ⟨e, he, ⟨opts, hm, hr⟩, hn⟩
      refine ⟨e, ?_, ⟨opts, List.mem_cons.mpr (Or.inr hm), hr⟩, hn⟩
      simp [initLoop, hF, he]

/-! ### Sorting lemmas -/

theorem mem_insertRow (a r : DisplayRow) :
    ∀ l : List DisplayRow, a ∈ insertRow r l ↔ a = r ∨ a ∈ l := by
  intro l
  induction l with
  | nil => simp [insertRow]
  | cons x xs ih =>
    unfold insertRow
    by_cases hle : r.name ≤ x.name
    · simp [hle, List.mem_cons]
    · simp only [hle, if_false, List.mem_cons, ih]
      tauto

theorem mem_sortRows (a : DisplayRow) :
    ∀ l : List DisplayRow, a ∈ sortRows l ↔ a ∈ l := by
  intro l
  induction l with
  | nil => simp [sortRows]
  | cons x xs ih =>
    have hstep : sortRows (x :: xs) = insertRow x (sortRows xs) := rfl
    rw [hstep, mem_insertRow, ih, List.mem_cons]

theorem initLoop_registered (initial : List (String × Value)) :
    ∀ (schema : Schema) (fs : List (String × FormField)) (bs : List Nat)
      (fs2 : List (String × FormField)) (bs2 : List Nat),
      initLoop initial schema fs bs = .ok (fs2, bs2) →
      ∀ p, p ∈ schema → (FIELDS (resolvedType p.2)).isSome := by
  intro schema
  induction schema with
  | nil => intro fs bs fs2 bs2 _ p hp; simp at hp
  | cons q rest ih =>
    intro fs bs fs2 bs2 h p hp
    cases hF : FIELDS (resolvedType q.2) with
    | none => simp [initLoop, hF] at h
    | some spec =>
      simp only [initLoop, hF] at h
      rcases List.mem_cons.mp hp with h1 | h2
      · rw [h1, hF]; rfl
      · exact ih _ _ fs2 bs2 h p h2

/-! ### Claim theorems -/

/-- C1: validation raises the concurrent-modification error exactly when the
submitted version fingerprint differs from the fingerprint computed at form
construction time, and submitting the construction-time fingerprint itself
passes the version check. -/
theorem C1_clean_version_iff (schema : Schema) (initial : List (String × Value))
    (form : ConstanceForm) (submitted : String)
    (h : ConstanceForm.init schema initial = .ok form) :
    (form.clean_version submitted = .error .concurrentModification ↔
      submitted ≠ form.version) ∧
    form.clean_version form.version = .ok form.version ∧
    form.version = versionHash schema initial := by
  refine ⟨?_, ?_, init_version h⟩
  · unfold ConstanceForm.clean_version
    by_cases he : submitted = form.version
    · simp [he]
    · simp [he]
  · simp [ConstanceForm.clean_version]

/-- C1 witness: the hypothesis holds and the property is checked on the
one-setting schema with backend value y. -/
theorem C1_clean_version_iff_witness :
    ConstanceForm.init schemaA1 backendY = .ok (exForm schemaA1 backendY) ∧
    (((exForm schemaA1 backendY).clean_version ("") =
        .error .concurrentModification ↔
      ("" : String) ≠ (exForm schemaA1 backendY).version) ∧
    (exForm schemaA1 backendY).clean_version (exForm schemaA1 backendY).version =
      .ok (exForm schemaA1 backendY).version ∧
    (exForm schemaA1 backendY).version = versionHash schemaA1 backendY) :=
  ⟨by decide,
   C1_clean_version_iff schemaA1 backendY (exForm schemaA1 backendY) ("") (by decide)⟩

/-- C5: the version fingerprint of a successfully constructed form is the MD5
hexdigest accumulated over each setting in schema iteration order from the
string-encoded current initial value, an absent setting contributing the
empty string. -/
theorem C5_fingerprint_formula (schema : Schema) (initial : List (String × Value))
    (form : ConstanceForm)
    (h : ConstanceForm.init schema initial = .ok form) :
    form.version = md5Hex (hashBytes schema initial) := by
  rw [init_version h]
  rfl

/-- C5 witness: the formula is checked on the one-setting schema with backend
value y. -/
theorem C5_fingerprint_formula_witness :
    ConstanceForm.init schemaA1 backendY = .ok (exForm schemaA1 backendY) ∧
    (exForm schemaA1 backendY).version = md5Hex (hashBytes schemaA1 backendY) :=
  ⟨by decide,
   C5_fingerprint_formula schemaA1 backendY (exForm schemaA1 backendY) (by decide)⟩

/-- C2 counterexample: with one setting A whose submitted value v equals its
current backend value, save still performs a write for A, so it is not the
case that only changed field names are written. -/
theorem C2_counterexample :
    lookupA backendV ("A") = some (Value.vstr ("v")) ∧
    (ConstanceForm.save schemaAv (fun _ => Value.vstr ("v")) backendV).2 =
      [(("A" : String), Value.vstr ("v"))] ∧
    (ConstanceForm.save schemaAv (fun _ => Value.vstr ("v")) backendV).2 ≠ [] := by
  refine ⟨rfl, rfl, by decide⟩

/-- C2 amended: saving a valid form writes every schema setting name to the
backend store, one write per setting name in schema iteration order carrying
the submitted value, whether or not it changed. -/
theorem C2_amended_save_writes_all (schema : Schema) (cleaned : String → Value)
    (backend : List (String × Value)) :
    (ConstanceForm.save schema cleaned backend).2 =
      schema.map (fun p => (p.1, cleaned p.1)) :=
  save_writes schema cleaned backend

/-- C3 counterexample: the same two settings iterated in the two possible
orders, with values x and y, produce different fingerprints, refuting
order-independence at this input. -/
theorem C3_counterexample :
    schemaAB.Perm schemaBA ∧
    versionHash schemaAB initXY ≠ versionHash schemaBA initXY := by
  constructor
  · decide
  · decide

/-- C3 amended: the version fingerprint is order-dependent; there exist an
initial value mapping and two iteration orders of the same settings that
yield different digests. -/
theorem C3_amended_order_dependent :
    ∃ (s1 s2 : Schema) (i : List (String × Value)),
      s1.Perm s2 ∧ versionHash s1 i ≠ versionHash s2 i :=
  ⟨schemaAB, schemaBA, initXY, by decide, by decide⟩

/-- C10: the fingerprint is not injective: two mappings that differ at
setting A (adjacent strings split at different boundaries) share a
fingerprint because per-setting encodings are concatenated without a
separator, and the version check accepts the stale fingerprint, missing the
concurrent modification. -/
theorem C10_fingerprint_collision :
    ∃ m1 m2 : List (String × Value),
      (∃ n, lookupA m1 n ≠ lookupA m2 n) ∧
      versionHash schemaAB m1 = versionHash schemaAB m2 ∧
      ConstanceForm.init schemaAB m2 = .ok (exForm schemaAB m2) ∧
      (exForm schemaAB m2).clean_version (versionHash schemaAB m1) =
        .ok (versionHash schemaAB m1) :=
  ⟨mSplit1, mSplit2, ⟨("A"), by decide⟩, by decide, by decide, by decide⟩

/-- C4 counterexample: a schema whose setting FOO has an unregistered custom
type passes module import untouched, and the configuration error naming the
type and the setting is raised only when the admin view constructs the form,
that is at render time, not at startup. -/
theorem C4_counterexample :
    module_import_check schemaBad = .ok () ∧
    ConstanceForm.init schemaBad [] =
      .error ⟨.custom ("Widget"), ("FOO" : String)⟩ ∧
    changelist_view true uSuper schemaBad [] =
      .configError ⟨.custom ("Widget"), ("FOO" : String)⟩ := by
  refine ⟨rfl, by decide, by decide⟩

/-- C4 amended: when some setting resolves to an unregistered type, the
module import still succeeds and the configuration error naming an offending
setting and its resolved type is raised at form construction. -/
theorem C4_amended_error_at_form_construction (schema : Schema)
    (initial : List (String × Value))
    (h : ∃ p, p ∈ schema ∧ FIELDS (resolvedType p.2) = none) :
    module_import_check schema = .ok () ∧
    ∃ e : ConfigError, ConstanceForm.init schema initial = .error e ∧
      (∃ opts, (e.name, opts) ∈ schema ∧ resolvedType opts = e.config_type) ∧
      FIELDS e.config_type = none := by
  refine ⟨rfl, ?_⟩
  rcases initLoop_error initial schema [(("version" : String), versionField)] [] h with
    ⟨e, he, hm, hn⟩
  refine ⟨e, ?_, hm, hn⟩
  unfold ConstanceForm.init
  rw [he]

/-- C4 amended witness: the hypothesis holds for schemaBad and the error is
raised at form construction while import succeeds. -/
theorem C4_amended_error_at_form_construction_witness :
    (∃ p, p ∈ schemaBad ∧ FIELDS (resolvedType p.2) = none) ∧
    (module_import_check schemaBad = .ok () ∧
    ∃ e : ConfigError, ConstanceForm.init schemaBad [] = .error e ∧
      (∃ opts, (e.name, opts) ∈ schemaBad ∧ resolvedType opts = e.config_type) ∧
      FIELDS e.config_type = none) :=
  ⟨⟨(("FOO" : String), .three (.vstr ("x")) ("") (.custom ("Widget"))),
      by decide, rfl⟩,
   C4_amended_error_at_form_construction schemaBad []
     ⟨(("FOO" : String), .three (.vstr ("x")) ("") (.custom ("Widget"))),
      by decide, rfl⟩⟩

/-- C6: the initial value mapping overlays defaults with backend values, so
each setting reads its backend value when the bulk read returns one and its
default otherwise, and after a save the initial mapping for a new form reads
the saved value, not the default. -/
theorem C6_round_trip (schema : Schema) (backend : List (String × Value))
    (cleaned : String → Value) (n : String) (opts : SettingOptions)
    (hnd : (schema.map Prod.fst).Nodup) (hm : (n, opts) ∈ schema) :
    lookupA (buildInitial schema backend) n =
      some ((lookupA backend n).getD opts.dflt) ∧
    lookupA (buildInitial schema
      ((ConstanceForm.save schema cleaned backend).1)) n = some (cleaned n) := by
  have hkey : n ∈ schema.map Prod.fst := List.mem_map.mpr ⟨(n, opts), hm, rfl⟩
  refine ⟨lookupA_buildInitial backend hnd hm, ?_⟩
  rw [lookupA_buildInitial ((ConstanceForm.save schema cleaned backend).1) hnd hm,
    lookupA_save schema backend hkey]
  rfl

/-- C6 witness: checked on the one-setting schema, backend value y, saving z. -/
theorem C6_round_trip_witness :
    ((schemaA1.map Prod.fst).Nodup ∧
      ((("A" : String), SettingOptions.two (.vstr ("x")) ("")) ∈ schemaA1)) ∧
    (lookupA (buildInitial schemaA1 backendY) ("A") =
      some ((lookupA backendY ("A")).getD
        (SettingOptions.two (.vstr ("x")) ("")).dflt) ∧
    lookupA (buildInitial schemaA1
      ((ConstanceForm.save schemaA1 (fun _ => Value.vstr ("z")) backendY).1))
      ("A") = some ((fun _ => Value.vstr ("z")) ("A"))) :=
  ⟨⟨by decide, by decide⟩,
   C6_round_trip schemaA1 backendY (fun _ => Value.vstr ("z")) ("A")
     (SettingOptions.two (.vstr ("x")) ("")) (by decide) (by decide)⟩

/-- C7: a successfully constructed form holds the hidden version field first
and then exactly one field per setting keyed by the setting name, the field
being the FIELDS entry for the resolved type (options[2] for a length-3
options tuple, else the type of the default) instantiated with label=name. -/
theorem C7_form_fields (schema : Schema) (initial : List (String × Value))
    (form : ConstanceForm)
    (hnd : (schema.map Prod.fst).Nodup)
    (hv : ("version" : String) ∉ schema.map Prod.fst)
    (h : ConstanceForm.init schema initial = .ok form) :
    form.fields.map Prod.fst = ("version" : String) :: schema.map Prod.fst ∧
    lookupA form.fields ("version") = some versionField ∧
    (∀ n opts, (n, opts) ∈ schema →
      lookupA form.fields n =
        (FIELDS (resolvedType opts)).map (fun sp => (⟨sp, some n⟩ : FormField)) ∧
      (form.fields.map Prod.fst).count n = 1) ∧
    (∀ d ht t, resolvedType (.three d ht t) = t) ∧
    (∀ d ht, resolvedType (.two d ht) = typeOf d) := by
  unfold ConstanceForm.init at h
  cases hL : initLoop initial schema [(("version" : String), versionField)] [] with
  | error e => rw [hL] at h; simp at h
  | ok r =>
    rw [hL] at h
    simp only [Except.ok.injEq] at h
    have hreg := initLoop_registered initial schema _ _ r.1 r.2 (by rw [hL])
    have hfresh : ∀ m, m ∈ schema.map Prod.fst →
        m ∉ ([(("version" : String), versionField)]).map Prod.fst := by
      intro m hm
      simp only [List.map_cons, List.map_nil, List.mem_singleton]
      intro he
      exact hv (he ▸ hm)
    have hf := initLoop_fields initial schema _ _ r.1 r.2 (by rw [hL]) hnd hfresh
    have hfields : form.fields = (("version" : String), versionField) ::
        schema.map (fun p => (p.1, settingField p)) := by
      rw [← h]
      simpa using hf
    refine ⟨?_, ?_, ?_, fun d ht t => rfl, fun d ht => rfl⟩
    · rw [hfields]
      simp only [List.map_cons, List.map_map]
      rfl
    · rw [hfields]
      simp [lookupA]
    · intro n opts hm
      have hkey : n ∈ schema.map Prod.fst := List.mem_map.mpr ⟨(n, opts), hm, rfl⟩
      have hnv : ¬ (("version" : String) = n) := fun he => hv (he ▸ hkey)
      constructor
      · rw [hfields]
        simp only [lookupA]
        rw [if_neg hnv]
        have hnd2 : ((schema.map (fun p => (p.1, settingField p))).map Prod.fst).Nodup := by
          rw [List.map_map]
          exact hnd
        rw [lookupA_of_mem_nodup hnd2 (List.mem_map.mpr ⟨(n, opts), hm, rfl⟩)]
        rcases Option.isSome_iff_exists.mp (hreg (n, opts) hm) with ⟨spec, hspec⟩
        rw [hspec]
        unfold settingField
        rw [hspec]
        rfl
      · rw [hfields]
        simp only [List.map_cons, List.map_map]
        rw [List.count_cons_of_ne (fun he => hnv he.symm)]
        exact List.count_eq_one_of_mem hnd hkey

/-- C7 witness: checked on a two-setting schema with an inferred int type and
an explicit string type. -/
theorem C7_form_fields_witness :
    ((schemaW2.map Prod.fst).Nodup ∧
      ("version" : String) ∉ schemaW2.map Prod.fst ∧
      ConstanceForm.init schemaW2 [] = .ok (exForm schemaW2 [])) ∧
    ((exForm schemaW2 []).fields.map Prod.fst =
        ("version" : String) :: schemaW2.map Prod.fst ∧
      lookupA (exForm schemaW2 []).fields ("version") = some versionField ∧
      (∀ n opts, (n, opts) ∈ schemaW2 →
        lookupA (exForm schemaW2 []).fields n =
          (FIELDS (resolvedType opts)).map (fun sp => (⟨sp, some n⟩ : FormField)) ∧
        ((exForm schemaW2 []).fields.map Prod.fst).count n = 1) ∧
      (∀ d ht t, resolvedType (.three d ht t) = t) ∧
      (∀ d ht, resolvedType (.two d ht) = typeOf d)) :=
  ⟨⟨by decide, by decide, by decide⟩,
   C7_form_fields schemaW2 [] (exForm schemaW2 []) (by decide) (by decide)
     (by decide)⟩

/-- C8: in every row the rendered page carries, the modified flag is true
exactly when the rows current value differs from its default value. -/
theorem C8_modified_iff (so : Bool) (u : User) (schema : Schema)
    (backend : List (String × Value)) (rows : List DisplayRow)
    (form : ConstanceForm)
    (h : changelist_view so u schema backend = .page rows form)
    (r : DisplayRow) (hr : r ∈ rows) :
    r.modified = true ↔ r.value ≠ r.dflt := by
  unfold changelist_view at h
  by_cases hperm : has_change_permission so u
  · rw [if_pos hperm] at h
    cases hI : ConstanceForm.init schema (buildInitial schema backend) with
    | error e => rw [hI] at h; simp at h
    | ok f =>
      rw [hI] at h
      simp only [ViewResult.page.injEq] at h
      rw [← h.1] at hr
      rw [mem_sortRows] at hr
      rcases List.mem_map.mp hr with ⟨p, hp, hrow⟩
      rw [← hrow]
      unfold rowOf
      simp only [decide_eq_true_eq]
  · rw [if_neg hperm] at h
    exact absurd h (by simp)

/-- C8 witness: checked on the one-setting schema with default x and backend
value y, whose single row is modified. -/
theorem C8_modified_iff_witness :
    changelist_view true uSuper schemaA1 backendY =
      .page [rowA] (exForm schemaA1 (buildInitial schemaA1 backendY)) ∧
    rowA ∈ [rowA] ∧
    (rowA.modified = true ↔ rowA.value ≠ rowA.dflt) :=
  ⟨by decide, by decide,
   C8_modified_iff true uSuper schemaA1 backendY [rowA]
     (exForm schemaA1 (buildInitial schemaA1 backendY)) (by decide) rowA
     (by decide)⟩

/-- C9: with superuser-only mode enabled the change permission equals the
superuser flag, a non-superuser request is denied before any rendering, and
the add and delete permissions are false for every input. -/
theorem C9_permission_gate (so : Bool) (u : User) (schema : Schema)
    (backend : List (String × Value)) (hso : so = true) :
    has_change_permission so u = u.is_superuser ∧
    (u.is_superuser = false →
      changelist_view so u schema backend = .permissionDenied) ∧
    has_add_permission u = false ∧
    has_delete_permission u = false := by
  subst hso
  refine ⟨by simp [has_change_permission], ?_, rfl, rfl⟩
  intro hns
  simp [changelist_view, has_change_permission, hns]

/-- C9 witness: checked for a non-superuser holding the framework default
change permission. -/
theorem C9_permission_gate_witness :
    (true = true) ∧
    (has_change_permission true uPlain = uPlain.is_superuser ∧
    (uPlain.is_superuser = false →
      changelist_view true uPlain schemaA1 backendY = .permissionDenied) ∧
    has_add_permission uPlain = false ∧
    has_delete_permission uPlain = false) :=
  ⟨rfl, C9_permission_gate true uPlain schemaA1 backendY rfl⟩

end Constance
